import Mathlib

/-!
Verification of platform-registry-api against its specification.

The Python sources are shallowly embedded:
* URL paths are represented by their list of `/`-separated segments
  (the image of Python `path.split("/")`, so `"/v2/a/tags/l"` is
  `["", "v2", "a", "tags", "l"]`); repository names, which may contain
  slashes, are likewise represented by their segment lists, and query
  strings by association lists of key/value pairs;
* clock values and token timestamps are rationals;
* fallible Python code (raising `ValueError`, failing an `assert`,
  raising `TypeError`) returns `Option`/`Except`.
-/

set_option maxRecDepth 8000

namespace RegistryApi

/-! ### String helpers (Python semantics on character lists) -/

/-- Python `s.split(sep)` for a one-character separator, acting on the
character list: `"".split` gives `[""]`, a trailing separator yields a
trailing empty field. -/
def splitCharsOn (sep : Char) : List Char → List (List Char)
  | [] => [[]]
  | c :: rest =>
    if c = sep then [] :: splitCharsOn sep rest
    else
      match splitCharsOn sep rest with
      | [] => [[c]]
      | h :: t => (c :: h) :: t

/-- Python `s.split("/")`. -/
def splitSlash (s : String) : List String :=
  (splitCharsOn '/' s.data).map String.mk

/-- Inverse of splitting on `/`: joins path segments back into the string
they came from (`String.intercalate "/"`, unfolded for easy induction). -/
def joinSegs : List String → String
  | [] => ""
  | [s] => s
  | s :: t :: rest => s ++ "/" ++ joinSegs (t :: rest)

/-- Python `pat in s` (contiguous substring test) on character lists. -/
def charsInfix (pat : List Char) : List Char → Bool
  | [] => pat.isEmpty
  | c :: rest => pat.isPrefixOf (c :: rest) || charsInfix pat rest

/-- Python `pat in s` for strings. -/
def strContains (s pat : String) : Bool :=
  charsInfix pat.data s.data

/-- Python `s.startswith(pre)`. -/
def strStartsWith (s pre : String) : Bool :=
  pre.data.isPrefixOf s.data

/-- Python `s[n:]` (slicing drops code points, as `List.drop` on chars). -/
def strDrop (s : String) (n : Nat) : String :=
  String.mk (s.data.drop n)

/-- First value bound to `key` in a query/mapping, like indexing a
(multi)dict built from the pairs in order. -/
def queryGet (q : List (String × String)) (key : String) : Option String :=
  (q.find? fun p => decide (p.1 = key)).map Prod.snd

/-- `yarl.URL.update_query` for a single key: replace the value of an
existing key in place, or append the pair when the key is absent. -/
def updateQuery (q : List (String × String)) (key val : String) :
    List (String × String) :=
  if (q.find? fun p => decide (p.1 = key)).isSome then
    q.map fun p => if p.1 = key then (key, val) else p
  else
    q ++ [(key, val)]

/-- Largest `k < n` satisfying `p` (how a greedy regex group settles on the
right-most viable split point). -/
def findLastValid (p : Nat → Bool) : Nat → Option Nat
  | 0 => none
  | n + 1 => if p n then some n else findLastValid p n

/-! ### `cache.py`: `ExpiringCache` -/

/-- `ExpiringCache._cache`: a mapping from optional string keys to
`(value, expires_at)` records.  The association list keeps at most one
entry per key (`cachePut` filters the old binding out, as a dict
assignment overwrites it). -/
structure ExpiringCache (V : Type) where
  entries : List (Option String × V × Rat)
deriving DecidableEq

/-- `self._cache.get(key)`. -/
def cacheRecord {V : Type} (c : ExpiringCache V) (key : Option String) :
    Option (V × Rat) :=
  (c.entries.find? fun p => decide (p.1 = key)).map Prod.snd

/-- `ExpiringCache.get`: return the stored value when the record exists and
`self._time_factory() < expires_at`, else `None`. -/
def cacheGet {V : Type} (c : ExpiringCache V) (now : Rat) (key : Option String) :
    Option V :=
  match cacheRecord c key with
  | some (value, expiresAt) => if now < expiresAt then some value else none
  | none => none

/-- `ExpiringCache.put`: `self._cache[key] = value, expires_at`. -/
def cachePut {V : Type} (c : ExpiringCache V) (key : Option String) (value : V)
    (expiresAt : Rat) : ExpiringCache V :=
  ⟨(key, value, expiresAt) :: c.entries.filter fun p => decide (p.1 ≠ key)⟩

/-- A sequence of later `put` operations, applied left to right. -/
def applyPuts {V : Type} (ops : List (Option String × V × Rat))
    (c : ExpiringCache V) : ExpiringCache V :=
  ops.foldl (fun acc op => cachePut acc op.1 op.2.1 op.2.2) c

/-! ### `oauth.py` / `auth_strategies.py`: `OAuthToken` -/

/-- The JSON payload fields read by `OAuthToken.create_from_payload`.
`expiresIn` holds the parsed number when the key is present; `issuedAt`
holds the raw ISO-8601 string. -/
structure OAuthPayload where
  token : Option String
  accessToken : Option String
  expiresIn : Option Rat
  issuedAt : Option String

structure OAuthToken where
  accessToken : String
  expiresAt : Rat
deriving DecidableEq

/-- `OAuthToken._parse_access_token`: `payload.get("token") or
payload.get("access_token")`; an absent key and an empty string are both
falsy; raises (`none`) when no token is found. -/
def parse_access_token (p : OAuthPayload) : Option String :=
  match p.token with
  | some t => if t = "" then parse_access_token_fallback p else some t
  | none => parse_access_token_fallback p
where
  parse_access_token_fallback (p : OAuthPayload) : Option String :=
    match p.accessToken with
    | some t => if t = "" then none else some t
    | none => none

/-- `iso8601.parse_date(s).timestamp()` is external; the embedding takes the
parse as a function argument.  `issued_at` from `OAuthToken._parse_expires_at`:
the payload's ISO-8601 timestamp when the string is present (and truthy),
else the current time. -/
def oauth_issued_at (isoTimestamp : String → Rat) (p : OAuthPayload)
    (now : Rat) : Rat :=
  match p.issuedAt with
  | some s => if s = "" then now else isoTimestamp s
  | none => now

/-- `OAuthToken._parse_expires_at`:
`issued_at + payload.get("expires_in", default_expires_in) * expiration_ratio`. -/
def parse_expires_at (isoTimestamp : String → Rat) (p : OAuthPayload)
    (defaultExpiresIn expirationRatio now : Rat) : Rat :=
  oauth_issued_at isoTimestamp p now + p.expiresIn.getD defaultExpiresIn * expirationRatio

/-- `OAuthToken.create_from_payload` with its default arguments
`default_expires_in = 60` and `expiration_ratio = 0.75`. -/
def create_from_payload (isoTimestamp : String → Rat) (p : OAuthPayload)
    (now : Rat) : Option OAuthToken :=
  (parse_access_token p).map fun tok =>
    ⟨tok, parse_expires_at isoTimestamp p 60 (3 / 4) now⟩

/-! ### `aws_ecr.py` / `auth_strategies.py`: `convert_upstream_response` -/

structure EcrFailure where
  failureCode : String
  failureReason : String
deriving DecidableEq

/-- The parts of the botocore response dict the converter reads:
`ResponseMetadata.HTTPStatusCode`, the `failures` array, and the remaining
top-level keys (values abstracted to strings). -/
structure EcrResponse where
  httpStatusCode : Nat
  failures : List EcrFailure
  rest : List (String × String)
deriving DecidableEq

/-- A Docker Registry v2 error code; the source mixes strings
(`"NAME_INVALID"`) and the integer `0`. -/
inductive RegistryErrorCode where
  | str (s : String)
  | num (n : Nat)
deriving DecidableEq

/-- The converted body: either the remaining upstream payload or a
one-element `errors` envelope. -/
inductive RegistryContent where
  | payload (fields : List (String × String))
  | errors (code : RegistryErrorCode) (message detail : String)
deriving DecidableEq

/-- `AWSECRUpstream.convert_upstream_response` (the identical
`AWSECRAuthStrategy` copy included).  The `assert HTTPStatusCode == 200`
is modelled as `none`; the final `content.pop` calls leave the error
envelopes untouched and remove the `repository` key from a passthrough
payload (`failures`/`ResponseMetadata` were already popped). -/
def convert_upstream_response (r : EcrResponse) :
    Option (Nat × RegistryContent) :=
  if r.httpStatusCode ≠ 200 then none
  else
    match r.failures with
    | [] =>
      some (202, .payload (r.rest.filter fun kv => decide (kv.1 ≠ "repository")))
    | failure :: _ =>
      if failure.failureCode = "ImageNotFound" then
        some (404, .errors (.str "NAME_INVALID") "Invalid image name"
          failure.failureReason)
      else if failure.failureCode = "RepositoryNotFound" then
        some (404, .errors (.str "NAME_UNKNOWN")
          "Repository name not known to registry" failure.failureReason)
      else
        some (500, .errors (.num 0) failure.failureCode failure.failureReason)

/-- The ECR-to-Docker-v2 translation exactly as claim C8 words it: no
failures means 202 with the remaining payload; an `ImageNotFound` first
failure means 404 with a single `NAME_INVALID` error; `RepositoryNotFound`
means 404 with a single `NAME_UNKNOWN` error; any other code means 500
with a single error of code `0` whose message is the failure code.  (The
`message`/`detail` strings of the 404 envelopes are the code's constants;
the claim leaves them unspecified.) -/
def claimed_ecr_conversion (failures : List EcrFailure)
    (remaining : List (String × String)) : Nat × RegistryContent :=
  match failures with
  | [] => (202, .payload remaining)
  | failure :: _ =>
    if failure.failureCode = "ImageNotFound" then
      (404, .errors (.str "NAME_INVALID") "Invalid image name"
        failure.failureReason)
    else if failure.failureCode = "RepositoryNotFound" then
      (404, .errors (.str "NAME_UNKNOWN")
        "Repository name not known to registry" failure.failureReason)
    else
      (500, .errors (.num 0) failure.failureCode failure.failureReason)

/-! ### `helpers.py`: `check_image_catalog_permission` -/

/-- Permission actions, ordered `deny < list < read < write < manage`. -/
inductive Action where
  | deny
  | list
  | read
  | write
  | manage
deriving DecidableEq

def actionRank : Action → Nat
  | .deny => 0
  | .list => 1
  | .read => 2
  | .write => 3
  | .manage => 4

/-- `action ≥ read` in the order above. -/
def canRead (a : Action) : Bool :=
  decide (actionRank Action.read ≤ actionRank a)

/-- A node of the client permission tree: an action and named children. -/
inductive PermTree where
  | node (action : Action) (children : List (String × PermTree))

def PermTree.action : PermTree → Action
  | .node a _ => a

def PermTree.children : PermTree → List (String × PermTree)
  | .node _ c => c

/-- `node.children.get(part)`. -/
def childGet (t : PermTree) (part : String) : Option PermTree :=
  (t.children.find? fun p => decide (p.1 = part)).map Prod.snd

/-- `node.action not in ("deny", "list")` — the final `return` of
`check_image_catalog_permission`. -/
def permFinal (t : PermTree) : Bool :=
  decide (t.action ≠ Action.deny ∧ t.action ≠ Action.list)

/-- The `for part in parts` loop of `check_image_catalog_permission`;
a `break` falls through to the final `return`.  The recursion is on the
remaining parts, exactly as the loop consumes them. -/
def catalogWalk : List String → PermTree → Bool
  | [], node => permFinal node
  | part :: rest, node =>
    if node.action = Action.list then
      match childGet node part with
      | some child => catalogWalk rest child
      | none =>
        let matchingLeaves := node.children.filter fun p =>
          p.2.children.isEmpty && (part ++ ":").data.isPrefixOf p.1.data
        if matchingLeaves.isEmpty then permFinal node
        else matchingLeaves.all fun p =>
          !(decide (p.2.action = Action.deny) || decide (p.2.action = Action.list))
    else permFinal node

/-- `ClientSubTreeViewRoot`: the wrapper whose `sub_tree` the helper walks. -/
structure ClientSubTreeViewRoot where
  subTree : PermTree

/-- `check_image_catalog_permission(image_name_and_tag, tree)`. -/
def check_image_catalog_permission (imageNameAndTag : String)
    (tree : ClientSubTreeViewRoot) : Bool :=
  catalogWalk (splitSlash imageNameAndTag) tree.subTree

/-- The evaluation procedure exactly as claim C2 words it: split on `/`;
at each step, if the current node's action is at least `read` return true,
else descend into the child named by the next segment; with no such child
return false; with segments exhausted return `action ≥ read`. -/
def claimedWalk : List String → PermTree → Bool
  | [], node => canRead node.action
  | part :: rest, node =>
    if canRead node.action then true
    else
      match childGet node part with
      | some child => claimedWalk rest child
      | none => false

def claimed_catalog_permission (imageNameAndTag : String)
    (tree : ClientSubTreeViewRoot) : Bool :=
  claimedWalk (splitSlash imageNameAndTag) tree.subTree

/-- The walk the code actually performs, phrased with the action order (the
amended claim C2): at a node whose action is not `list`, stop and return
`action ≥ read`; at a `list` node descend into the child named by the next
segment; with no such child, look at the childless children whose name
starts with `segment:` — if there are none return false, otherwise return
whether every one of them has `action ≥ read`; with segments exhausted
return `action ≥ read` of the final node. -/
def amendedWalk : List String → PermTree → Bool
  | [], node => canRead node.action
  | part :: rest, node =>
    if node.action = Action.list then
      match childGet node part with
      | some child => amendedWalk rest child
      | none =>
        let taggedLeaves := node.children.filter fun p =>
          p.2.children.isEmpty && (part ++ ":").data.isPrefixOf p.1.data
        if taggedLeaves.isEmpty then false
        else taggedLeaves.all fun p => canRead p.2.action
    else canRead node.action

def amended_catalog_permission (imageNameAndTag : String)
    (tree : ClientSubTreeViewRoot) : Bool :=
  amendedWalk (splitSlash imageNameAndTag) tree.subTree

/-! ### `api.py`: `RepoURL`, the path grammars and `URLFactory`

A `yarl.URL` is embedded as an optional origin (scheme/host/port, opaque),
the path as its `/`-segment list, and the query as a key/value list. -/

structure Url where
  origin : Option String
  pathSegs : List String
  query : List (String × String)
deriving DecidableEq

structure RepoURL where
  repo : List String
  mountedRepo : String
  url : Url
deriving DecidableEq

/-- The groups a passthrough pattern extracts: `project`, `repo`, and the
`path_suffix` segments. -/
structure PassMatch where
  project : List String
  repo : List String
  suffixSegs : List String
deriving DecidableEq

/-- `[A-Za-z0-9_=-]`, the upload-id character class. -/
def uploadIdChar (c : Char) : Bool :=
  c.isAlpha || c.isDigit || c = '_' || c = '=' || c = '-'

/-- Viability of splitting the first passthrough pattern at segment `j`
(the position of `repositories`): `project` = segments before `j` (a
non-empty string, greedy so `j` is maximised), `repo` = segments `j+1 ..
n-3` (non-empty), then one `(uploads|downloads)` segment and one
non-empty upload-id segment ending the path. -/
def p1Valid (rest : List String) (j : Nat) : Bool :=
  let n := rest.length
  decide (rest.getD j "" = "repositories") && decide (j + 4 ≤ n) &&
    decide (joinSegs (rest.take j) ≠ "") &&
    decide (joinSegs ((rest.drop (j + 1)).take (n - 3 - j)) ≠ "") &&
    (decide (rest.getD (n - 2) "" = "uploads") ||
      decide (rest.getD (n - 2) "" = "downloads")) &&
    decide (rest.getD (n - 1) "" ≠ "") &&
    (rest.getD (n - 1) "").data.all uploadIdChar

/-- Full match of
`^/(artifacts-uploads|artifacts-downloads)/namespaces/(?P<project>.+)/repositories/(?P<repo>.+)/(?P<path_suffix>(uploads|downloads))/(?P<upload_id>[A-Za-z0-9_=-]+)`
(the upload id cannot contain `/`, so it is exactly the final segment, and
the `(uploads|downloads)` group the one before it; the greedy `project`
takes the right-most viable `repositories` separator). -/
def passMatch1 (segs : List String) : Option PassMatch :=
  match segs with
  | "" :: kind :: "namespaces" :: rest =>
    if kind = "artifacts-uploads" ∨ kind = "artifacts-downloads" then
      (findLastValid (p1Valid rest) rest.length).map fun j =>
        ⟨rest.take j, (rest.drop (j + 1)).take (rest.length - 3 - j),
          [rest.getD (rest.length - 2) ""]⟩
    else none
  | _ => none

/-- Viability of placing `/pkg/blobs/` with `pkg` at segment `m`, given the
`project` group ends before segment `i`: `repo` = segments `i .. m-1`
(non-empty string) and at least one character follows `blobs/`. -/
def p2ValidM (rest : List String) (i m : Nat) : Bool :=
  decide (i + 1 ≤ m) && decide (rest.getD m "" = "pkg") &&
    decide (m + 2 ≤ rest.length) && decide (rest.getD (m + 1) "" = "blobs") &&
    decide (joinSegs ((rest.drop i).take (m - i)) ≠ "") &&
    decide (joinSegs (rest.drop (m + 2)) ≠ "")

/-- Viability of ending the greedy `project` group before segment `i`. -/
def p2ValidI (rest : List String) (i : Nat) : Bool :=
  decide (joinSegs (rest.take i) ≠ "") &&
    (findLastValid (p2ValidM rest i) rest.length).isSome

/-- Full match of
`^/v2/(?P<project>.+)/(?P<repo>.+)/pkg/(?P<path_suffix>blobs/.+)`:
`project` is greedy first, then `repo` (pushing `/pkg/blobs/` right-most). -/
def passMatch2 (segs : List String) : Option PassMatch :=
  match segs with
  | "" :: "v2" :: rest =>
    (findLastValid (p2ValidI rest) rest.length).bind fun i =>
      (findLastValid (p2ValidM rest i) rest.length).map fun m =>
        ⟨rest.take i, (rest.drop i).take (m - i), "blobs" :: rest.drop (m + 2)⟩
  | _ => none

/-- `RepoURL._get_match_skip_perms_path_re`: the first of the two
passthrough patterns that fully matches the path. -/
def passthroughMatch (segs : List String) : Option PassMatch :=
  match passMatch1 segs with
  | some m => some m
  | none => passMatch2 segs

/-- Viability of splitting `RepoURL._v2_path_re`
(`/v2/(?P<repo>.+)/(?P<path_suffix>(tags|manifests|blobs)/.*)`) at segment
`k` of the part after `/v2/`: the keyword there, another segment after it,
and a non-empty `repo` string before it. -/
def v2SplitValid (rest : List String) (k : Nat) : Bool :=
  (decide (rest.getD k "" = "tags") || decide (rest.getD k "" = "manifests") ||
    decide (rest.getD k "" = "blobs")) &&
    decide (k + 2 ≤ rest.length) && decide (joinSegs (rest.take k) ≠ "")

/-- Full match of the standard v2 grammar, the greedy `repo` group taking
the right-most viable keyword; yields `(repo, path_suffix)` segments. -/
def parseV2 (segs : List String) : Option (List String × List String) :=
  match segs with
  | "" :: "v2" :: rest =>
    (findLastValid (v2SplitValid rest) rest.length).map fun k =>
      (rest.take k, rest.drop k)
  | _ => none

/-- The cross-repo mount of `RepoURL._parse`: the `from=` query value when
the suffix path contains `blobs/uploads` and `from` is present, else `""`. -/
def v2MountedRepo (suffixSegs : List String)
    (query : List (String × String)) : String :=
  if strContains (joinSegs suffixSegs) "blobs/uploads" &&
      (queryGet query "from").isSome then
    (queryGet query "from").getD ""
  else ""

/-- `RepoURL._parse`: try the passthrough patterns first (their suffix URL
carries no query), then the v2 grammar; on the v2 grammar the cross-repo
mount `from=` query names the mounted repo.  `none` models the
`ValueError` for an unparseable path. -/
def repoUrlParse (u : Url) : Option (List String × String × Url) :=
  match passthroughMatch u.pathSegs with
  | some m => some (m.project ++ m.repo, "", ⟨none, m.suffixSegs, []⟩)
  | none =>
    match parseV2 u.pathSegs with
    | none => none
    | some (repo, suffixSegs) =>
      some (repo, v2MountedRepo suffixSegs u.query, ⟨none, suffixSegs, u.query⟩)

/-- `RepoURL.from_url`. -/
def from_url (u : Url) : Option RepoURL :=
  (repoUrlParse u).map fun x => ⟨x.1, x.2.1, u⟩

/-- `RepoURL.allow_skip_perms`. -/
def allow_skip_perms (r : RepoURL) : Bool :=
  (passthroughMatch r.url.pathSegs).isSome

/-- `RepoURL.with_project(project, upstream_repo)`.  The configured
`project` and optional `upstream_repo` are segment lists; a falsy
`upstream_repo` (absent or the empty string) inserts nothing.  The new URL
is `URL("/v2/{new_repo}/").join(url_suffix)` rebased on the original
origin: path `/v2/` + new repo segments + suffix segments, query from the
(possibly `from=`-rewritten) suffix. -/
def with_project (project : List String) (upstreamRepo : Option (List String))
    (r : RepoURL) : Option RepoURL :=
  (repoUrlParse r.url).map fun x =>
    let urlSuffix := x.2.2
    let newMountedRepo :=
      if r.mountedRepo ≠ "" then joinSegs project ++ "/" ++ r.mountedRepo
      else ""
    let urlSuffix2 :=
      if r.mountedRepo ≠ "" then
        ⟨urlSuffix.origin, urlSuffix.pathSegs,
          updateQuery urlSuffix.query "from" newMountedRepo⟩
      else urlSuffix
    let upSegs :=
      match upstreamRepo with
      | some ur => if joinSegs ur = "" then [] else ur
      | none => []
    let newRepo := project ++ upSegs ++ r.repo
    ⟨newRepo, newMountedRepo,
      ⟨r.url.origin, "" :: "v2" :: newRepo ++ urlSuffix2.pathSegs,
        urlSuffix2.query⟩⟩

/-- `RepoURL.with_repo(repo)`. -/
def with_repo (newRepo : List String) (r : RepoURL) : Option RepoURL :=
  (repoUrlParse r.url).map fun x =>
    let urlSuffix := x.2.2
    ⟨newRepo, r.mountedRepo,
      ⟨r.url.origin, "" :: "v2" :: newRepo ++ urlSuffix.pathSegs,
        urlSuffix.query⟩⟩

/-- `RepoURL.with_origin(origin_url)`: relativize if absolute, then join
onto the new origin — the path and query survive unchanged. -/
def with_origin (origin : String) (r : RepoURL) : RepoURL :=
  ⟨r.repo, r.mountedRepo, ⟨some origin, r.url.pathSegs, r.url.query⟩⟩

/-- `URLFactory` constructor state. -/
structure URLFactory where
  registryEndpointOrigin : String
  upstreamEndpointOrigin : String
  upstreamProject : List String
  upstreamRepo : Option (List String)

/-- `URLFactory.create_upstream_repo_url`. -/
def create_upstream_repo_url (f : URLFactory) (registryUrl : RepoURL) :
    Option RepoURL :=
  if allow_skip_perms registryUrl then
    some (with_origin f.upstreamEndpointOrigin registryUrl)
  else
    (with_project f.upstreamProject f.upstreamRepo registryUrl).map
      (with_origin f.upstreamEndpointOrigin)

/-- `URLFactory.create_registry_repo_url`: the `ValueError` when
`upstream_url.repo` does not start with `project + "/"` is `none`; on the
segment embedding, a string starts with `project + "/"` exactly when the
project's segments are a proper segment-list prefix of the repo's. -/
def create_registry_repo_url (f : URLFactory) (upstreamUrl : RepoURL) :
    Option RepoURL :=
  if f.upstreamProject.isPrefixOf upstreamUrl.repo &&
      decide (f.upstreamProject.length < upstreamUrl.repo.length) then
    (with_repo (upstreamUrl.repo.drop f.upstreamProject.length)
      upstreamUrl).map (with_origin f.registryEndpointOrigin)
  else none

/-! ### `api.py`: `V2Handler` pieces -/

/-- Decimal digits of a query value to a number (how `trafaret.Int`
converts the string form of `n`; only plain digit strings are given a
meaning here, anything else fails as a `DataError` does). -/
def digitsToNatAux : List Char → Nat → Option Nat
  | [], acc => some acc
  | c :: rest, acc =>
    if c.isDigit then digitsToNatAux rest (acc * 10 + (c.toNat - 48))
    else none

def parseIntStr (s : String) : Option Nat :=
  if s.data.isEmpty then none else digitsToNatAux s.data 0

/-- `CatalogPage` (`number` default 100, `last_token` default `""`). -/
structure CatalogPage where
  number : Nat
  lastToken : String
deriving DecidableEq

/-- `CATALOG_PAGE_VALIDATOR`: a `t.Dict` over `n` (`t.Int(gt=0)`, default
100) and an optional `last` (`t.String`), with `.allow_extra("*")` — any
other key is passed through untouched — composed with `CatalogPage.create`.
`Except.error` models the trafaret `DataError`. -/
def CATALOG_PAGE_VALIDATOR (query : List (String × String)) :
    Except String CatalogPage :=
  let lastToken := (queryGet query "last").getD ""
  match queryGet query "n" with
  | none => .ok ⟨100, lastToken⟩
  | some s =>
    match parseIntStr s with
    | some k => if 0 < k then .ok ⟨k, lastToken⟩ else .error "DataError"
    | none => .error "DataError"

/-- The prefix `f"{project_name}/{upstream_repo_prefix}"` stripped by
`filter_images_1_indexed`; a falsy `upstream_repo` contributes nothing. -/
def catalogProjectPre (projectName : String) (upstreamRepo : Option String) :
    String :=
  let upstreamRepoPre :=
    match upstreamRepo with
    | some r => if r = "" then "" else r ++ "/"
    | none => ""
  projectName ++ "/" ++ upstreamRepoPre

/-- The `enumerate(images_names, 1)` loop of
`V2Handler.filter_images_1_indexed`: every raw name consumes an index;
names lacking the project prefix are logged and skipped; prefixed names are
stripped and yielded when `check_image_catalog_permission` grants them. -/
def filterImagesGo (tree : ClientSubTreeViewRoot) (projectPre : String) :
    List String → Nat → List (Nat × String)
  | [], _ => []
  | image :: rest, index =>
    if strStartsWith image projectPre then
      let stripped := strDrop image projectPre.length
      if check_image_catalog_permission stripped tree then
        (index, stripped) :: filterImagesGo tree projectPre rest (index + 1)
      else filterImagesGo tree projectPre rest (index + 1)
    else filterImagesGo tree projectPre rest (index + 1)

/-- `V2Handler.filter_images_1_indexed`. -/
def filter_images_1_indexed (imagesNames : List String)
    (tree : ClientSubTreeViewRoot) (projectName : String)
    (upstreamRepo : Option String) : List (Nat × String) :=
  filterImagesGo tree (catalogProjectPre projectName upstreamRepo)
    imagesNames 1

/-- The paging loop of `V2Handler.handle_catalog`, abstracted over the
sequence of pages the upstream serves (`paging_url` is exhausted when the
list is): while a page URL remains and `len(filtered) < page.number`, fetch
the page, stop on an empty upstream list, filter it, and append filtered
entries until the requested number is reached (the inner `break`).  The
`index`/`more_images`/`last_token` bookkeeping feeds only the `Link`
header, not `filtered`, and is omitted. -/
def handleCatalogLoop (tree : ClientSubTreeViewRoot) (projectName : String)
    (upstreamRepo : Option String) (pageNumber : Nat) :
    List (List String) → List String → List String
  | [], filtered => filtered
  | imagesList :: restPages, filtered =>
    if filtered.length < pageNumber then
      if imagesList.isEmpty then filtered
      else
        let newImages :=
          (filter_images_1_indexed imagesList tree projectName
            upstreamRepo).map Prod.snd
        handleCatalogLoop tree projectName upstreamRepo pageNumber restPages
          (filtered ++ newImages.take (pageNumber - filtered.length))
    else filtered

/-- The `repositories` list of the catalog response body. -/
def handle_catalog_repositories (pages : List (List String))
    (tree : ClientSubTreeViewRoot) (projectName : String)
    (upstreamRepo : Option String) (pageNumber : Nat) : List String :=
  handleCatalogLoop tree projectName upstreamRepo pageNumber pages []

/-- `neuro_auth_client.Permission`. -/
structure Permission where
  uri : String
  action : String
deriving DecidableEq

/-- `V2Handler._is_pull_request`. -/
def is_pull_request (method : String) : Bool :=
  method = "HEAD" || method = "GET"

/-- `V2Handler._create_image_uri`. -/
def create_image_uri (clusterName repo : String) : String :=
  "image://" ++ clusterName ++ "/" ++ repo

/-- The permission list `V2Handler.handle` computes for a non-passthrough
request: `read`/`write` on the repo by method, plus `read` on the mounted
repo when a cross-repo mount is present. -/
def handle_permissions (clusterName method : String) (r : RepoURL) :
    List Permission :=
  ⟨create_image_uri clusterName (joinSegs r.repo),
    if is_pull_request method then "read" else "write"⟩ ::
    (if r.mountedRepo ≠ "" then
      [⟨create_image_uri clusterName r.mountedRepo, "read"⟩]
    else [])

/-- Whether `V2Handler.handle` reaches the proxying step: passthrough URLs
skip the check, otherwise every computed permission must be granted. -/
def handle_forwards (clusterName method : String)
    (granted : Permission → Bool) (r : RepoURL) : Bool :=
  allow_skip_perms r || (handle_permissions clusterName method r).all granted

/-! ### `api.py`: permission-check error mapping -/

inductive CheckOutcome where
  | ok
  | unauthorized
  | forbidden
deriving DecidableEq

/-- Modelled from the spec: the external `aiohttp_security.check_permission`
called by `V2Handler._check_user_permissions` (not part of this
repository) first authenticates — raising `HTTPUnauthorized` for an
unauthenticated caller — and then raises `HTTPForbidden` when the
authorization service denies the requested permissions; the repository's
integration test `test_cross_repo_blob_mount_forbidden` pins the 403 for
an authenticated, denied caller. -/
def check_permission_outcome (authenticated granted : Bool) : CheckOutcome :=
  if !authenticated then .unauthorized
  else if !granted then .forbidden
  else .ok

inductive HandlerResponse where
  | proceed
  | unauthorized (wwwAuthenticate : String)
  | forbidden
deriving DecidableEq

/-- The `WWW-Authenticate` value of `V2Handler._raise_unauthorized`. -/
def raise_unauthorized_header (serverName : String) : String :=
  "Basic realm=\"" ++ serverName ++ "\""

/-- `V2Handler._check_user_permissions`: `HTTPUnauthorized` from
`check_permission` is caught and re-raised as the 401 carrying
`WWW-Authenticate`; `HTTPForbidden` is not caught and propagates as 403. -/
def check_user_permissions (serverName : String)
    (authenticated granted : Bool) : HandlerResponse :=
  match check_permission_outcome authenticated granted with
  | .ok => .proceed
  | .unauthorized => .unauthorized (raise_unauthorized_header serverName)
  | .forbidden => .forbidden

/-! ### `basic.py`: `BasicUpstream` and the `handle` call site -/

/-- `BasicUpstream.get_headers_for_repo(self, repo)` under Python calling
semantics: the positional argument list must have exactly one element
(there is no `mounted_repo` parameter and no default), otherwise the call
itself raises `TypeError`.  `aiohttp.BasicAuth(...).encode()` is external
and taken as a function argument. -/
def basic_get_headers_for_repo (encodeBasicAuth : String → String → String)
    (username password : String) (args : List String) :
    Except String (List (String × String)) :=
  match args with
  | [_repo] => .ok [("Authorization", encodeBasicAuth username password)]
  | _ => .error "TypeError"

/-- The argument list `V2Handler.handle` (and
`_handle_generic_tags_list`) passes to `get_headers_for_repo`: always the
two positionals `upstream_repo_url.repo, upstream_repo_url.mounted_repo`. -/
def handle_repo_headers_args (upstreamRepoUrl : RepoURL) : List String :=
  [joinSegs upstreamRepoUrl.repo, upstreamRepoUrl.mountedRepo]

inductive BasicHandleResult where
  | permissionError
  | typeError
  | proxied (headers : List (String × String))
deriving DecidableEq

/-- `V2Handler.handle` with a `BasicUpstream`, up to the
`get_headers_for_repo` call: permission check (skipped for passthrough
URLs), upstream URL construction, then the header call; `none` models an
unparseable path. -/
def handle_with_basic_upstream (permsOk : Bool)
    (encodeBasicAuth : String → String → String) (username password : String)
    (f : URLFactory) (registryRepoUrl : RepoURL) :
    Option BasicHandleResult :=
  if !allow_skip_perms registryRepoUrl && !permsOk then
    some .permissionError
  else
    (create_upstream_repo_url f registryRepoUrl).map fun upstreamRepoUrl =>
      match basic_get_headers_for_repo encodeBasicAuth username password
        (handle_repo_headers_args upstreamRepoUrl) with
      | .error _ => .typeError
      | .ok headers => .proxied headers

/-! ## Supporting lemmas -/

theorem find?_filter_of_imp {α : Type} (p q : α → Bool) (l : List α)
    (h : ∀ x, p x = true → q x = true) :
    (l.filter q).find? p = l.find? p := by
  induction l with
  | nil => rfl
  | cons a t ih =>
    by_cases hq : q a = true
    · rw [List.filter_cons_of_pos hq]
      cases hp : p a with
      | true => rw [List.find?_cons_of_pos _ hp, List.find?_cons_of_pos _ hp]
      | false =>
        rw [List.find?_cons_of_neg _ (by simp [hp]),
          List.find?_cons_of_neg _ (by simp [hp])]
        exact ih
    · have hp : p a = false := by
        cases hp2 : p a with
        | true => exact absurd (h a hp2) hq
        | false => rfl
      rw [List.filter_cons_of_neg (by simp [hq]),
        List.find?_cons_of_neg _ (by simp [hp])]
      exact ih

theorem cacheRecord_put_same {V : Type} (c : ExpiringCache V)
    (k : Option String) (v : V) (e : Rat) :
    cacheRecord (cachePut c k v e) k = some (v, e) := by
  unfold cacheRecord cachePut
  rw [List.find?_cons_of_pos _ (by simp)]
  rfl

theorem cacheRecord_put_ne {V : Type} (c : ExpiringCache V)
    (k' : Option String) (v : V) (e : Rat) (k : Option String) (h : k' ≠ k) :
    cacheRecord (cachePut c k' v e) k = cacheRecord c k := by
  unfold cacheRecord cachePut
  rw [List.find?_cons_of_neg _ (by simp [h]),
    find?_filter_of_imp _ _ _ (fun x hx => by
      simp only [decide_eq_true_eq] at hx ⊢
      rw [hx]
      exact fun hk => h hk.symm)]

theorem applyPuts_record {V : Type} :
    ∀ (ops : List (Option String × V × Rat)) (c : ExpiringCache V)
      (k : Option String) (r : Option (V × Rat)),
      (∀ op ∈ ops, op.1 ≠ k) → cacheRecord c k = r →
      cacheRecord (applyPuts ops c) k = r := by
  intro ops
  induction ops with
  | nil => intro c k r _ h; exact h
  | cons op t ih =>
    intro c k r hops h
    have h2 : applyPuts (op :: t) c =
        applyPuts t (cachePut c op.1 op.2.1 op.2.2) := rfl
    rw [h2]
    refine ih _ _ _ (fun o ho => hops o (List.mem_cons_of_mem _ ho)) ?_
    rw [cacheRecord_put_ne _ _ _ _ _ (hops op (List.mem_cons_self _ _))]
    exact h

/-! ## Claim theorems -/

/-- Claim C10: after `put(k, v, e)` and any later puts for other keys,
`get(k)` at clock value `now` returns `v` exactly when `now < e`, and
`None` otherwise — for every key (the `None` key included), value and
expiry. -/
theorem c10_cache_expiry {V : Type} (c : ExpiringCache V) (k : Option String)
    (v : V) (e : Rat) (ops : List (Option String × V × Rat)) (now : Rat)
    (hops : ∀ op ∈ ops, op.1 ≠ k) :
    cacheGet (applyPuts ops (cachePut c k v e)) now k =
      if now < e then some v else none := by
  have hrec : cacheRecord (applyPuts ops (cachePut c k v e)) k = some (v, e) :=
    applyPuts_record ops _ k _ hops (cacheRecord_put_same c k v e)
  unfold cacheGet
  rw [hrec]

theorem c10_cache_expiry_witness :
    (∀ op ∈ [((some "a" : Option String), (1 : Nat), (9 : Rat))], op.1 ≠ none) ∧
    cacheGet (applyPuts [((some "a" : Option String), (1 : Nat), (9 : Rat))]
      (cachePut ⟨[]⟩ none 7 5)) 3 none =
      if (3 : Rat) < 5 then some 7 else none :=
  ⟨by decide, c10_cache_expiry ⟨[]⟩ none 7 5 _ 3 (by decide)⟩

/-- Claim C9: `OAuthToken.create_from_payload` produces
`expires_at = issued_at + expires_in * 0.75`, with `expires_in` defaulting
to 60 when absent and `issued_at` the parsed ISO-8601 payload value when
present, else the current time; hence `expiresAt - issuedAt` equals
`expiresIn * 0.75` for every payload the parser accepts. -/
theorem c9_token_expiration_ratio (isoTimestamp : String → Rat)
    (p : OAuthPayload) (now : Rat) (t : OAuthToken)
    (h : create_from_payload isoTimestamp p now = some t) :
    t.expiresAt - oauth_issued_at isoTimestamp p now =
      p.expiresIn.getD 60 * (3 / 4) := by
  unfold create_from_payload at h
  cases htok : parse_access_token p with
  | none => rw [htok] at h; cases h
  | some tok =>
    rw [htok, Option.map_some'] at h
    cases h
    unfold parse_expires_at
    ring

theorem c9_token_expiration_ratio_witness :
    create_from_payload (fun _ => 0) ⟨some "x", none, some 120, none⟩ 1000 =
      some ⟨"x", 1090⟩ ∧
    (OAuthToken.mk "x" 1090).expiresAt -
        oauth_issued_at (fun _ => 0) ⟨some "x", none, some 120, none⟩ 1000 =
      (Option.some (120 : Rat)).getD 60 * (3 / 4) := by
  have h : create_from_payload (fun _ => 0)
      ⟨some "x", none, some 120, none⟩ 1000 = some ⟨"x", 1090⟩ := by
    have htok : parse_access_token ⟨some "x", none, some 120, none⟩ =
        some "x" := by
      unfold parse_access_token
      dsimp only
      rw [if_neg (by decide : ¬("x" : String) = "")]
    unfold create_from_payload
    rw [htok, Option.map_some']
    have hexp : parse_expires_at (fun _ => (0 : Rat))
        ⟨some "x", none, some 120, none⟩ 60 (3 / 4) 1000 = 1090 := by
      unfold parse_expires_at oauth_issued_at
      norm_num
    rw [hexp]
  exact ⟨h, c9_token_expiration_ratio (fun _ => 0)
    ⟨some "x", none, some 120, none⟩ 1000 ⟨"x", 1090⟩ h⟩

/-- Claim C8: `convert_upstream_response` follows the claimed mapping of
ECR failure arrays to Docker Registry v2 results (202 on no failures,
`ImageNotFound` to 404/`NAME_INVALID`, `RepositoryNotFound` to
404/`NAME_UNKNOWN`, anything else to 500 with error code 0 and the failure
code as message), for every response passing the status-200 assertion. -/
theorem c8_convert_upstream_response (r : EcrResponse)
    (h : r.httpStatusCode = 200) :
    convert_upstream_response r =
      some (claimed_ecr_conversion r.failures
        (r.rest.filter fun kv => decide (kv.1 ≠ "repository"))) := by
  unfold convert_upstream_response claimed_ecr_conversion
  rw [if_neg (by simp [h])]
  cases r.failures with
  | nil => rfl
  | cons failure t =>
    by_cases h1 : failure.failureCode = "ImageNotFound"
    · simp [h1]
    · by_cases h2 : failure.failureCode = "RepositoryNotFound"
      · simp [h1, h2]
      · simp [h1, h2]

theorem c8_convert_upstream_response_witness :
    (EcrResponse.mk 200 [⟨"Boom", "why"⟩] [("k", "v")]).httpStatusCode = 200 ∧
    convert_upstream_response ⟨200, [⟨"Boom", "why"⟩], [("k", "v")]⟩ =
      some (claimed_ecr_conversion [⟨"Boom", "why"⟩]
        (([("k", "v")] : List (String × String)).filter
          fun kv => decide (kv.1 ≠ "repository"))) :=
  ⟨rfl, c8_convert_upstream_response ⟨200, [⟨"Boom", "why"⟩], [("k", "v")]⟩ rfl⟩

/-- Claim C2 fails on the code: with image name `a` and a `list` root whose
only child is the childless leaf `a:t` with action `read`, the walk claimed
by the spec finds no child named `a` and returns false, but
`check_image_catalog_permission` accepts the image through its
tagged-leaf branch. -/
theorem c2_counterexample :
    check_image_catalog_permission "a"
        ⟨.node .list [("a:t", .node .read [])]⟩ = true ∧
    claimed_catalog_permission "a"
        ⟨.node .list [("a:t", .node .read [])]⟩ = false := by
  constructor <;> rfl

theorem permFinal_eq_canRead (n : PermTree) : permFinal n = canRead n.action := by
  cases n with
  | node a c => cases a <;> rfl

/-- Claim C2 as amended: the walk descends only through `list` nodes,
stopping with `action ≥ read` at any node whose action is not `list` (so a
`deny` or readable node mid-walk decides immediately); at a `list` node
with no child for the next segment it consults the childless children
named `segment:...` — accepting exactly when they exist and all have
`action ≥ read` — and exhausted segments yield `action ≥ read` of the
final node.  `check_image_catalog_permission` computes exactly this. -/
theorem c2_catalog_permission_amended (image : String)
    (tree : ClientSubTreeViewRoot) :
    check_image_catalog_permission image tree =
      amended_catalog_permission image tree := by
  unfold check_image_catalog_permission amended_catalog_permission
  generalize splitSlash image = parts
  generalize tree.subTree = node
  induction parts generalizing node with
  | nil => exact permFinal_eq_canRead node
  | cons part rest ih =>
    cases node with
    | node a c =>
      unfold catalogWalk amendedWalk
      by_cases ha : PermTree.action (.node a c) = Action.list
      · rw [if_pos ha, if_pos ha]
        cases hc : childGet (.node a c) part with
        | some child => exact ih child
        | none =>
          dsimp only
          by_cases hm : (List.filter (fun p =>
              p.2.children.isEmpty &&
                (part ++ ":").data.isPrefixOf p.1.data)
              (PermTree.children (.node a c))).isEmpty = true
          · rw [if_pos hm, if_pos hm]
            have haEq : a = Action.list := ha
            subst haEq
            rfl
          · rw [if_neg hm, if_neg hm]
            have hfun : (fun p : String × PermTree =>
                !(decide (p.2.action = Action.deny) ||
                  decide (p.2.action = Action.list))) =
                fun p : String × PermTree => canRead p.2.action := by
              funext p
              cases hp : p.2 with
              | node a2 c2 => cases a2 <;> rfl
            rw [hfun]
      · rw [if_neg ha, if_neg ha]
        exact permFinal_eq_canRead _

/-- Claim C4 fails on the code: an authenticated caller whose permission
check is denied receives 403 (`HTTPForbidden` from `check_permission`
propagates uncaught), not the claimed 401 with `WWW-Authenticate`. -/
theorem c4_counterexample :
    check_user_permissions "Docker Registry" true false =
      HandlerResponse.forbidden ∧
    check_user_permissions "Docker Registry" true false ≠
      HandlerResponse.unauthorized
        (raise_unauthorized_header "Docker Registry") := by
  constructor
  · rfl
  · decide

/-- Claim C4 as amended: an authenticated caller whose permission check
fails receives 403; the 401 carrying
`WWW-Authenticate: Basic realm="{server name}"` is produced exactly when
`check_permission` reports the caller unauthenticated (that
`HTTPUnauthorized` is caught and re-raised with the header), and a granted
check lets the request proceed. -/
theorem c4_permission_denied_amended (serverName : String) :
    check_user_permissions serverName true false = HandlerResponse.forbidden ∧
    (∀ granted, check_user_permissions serverName false granted =
      HandlerResponse.unauthorized (raise_unauthorized_header serverName)) ∧
    check_user_permissions serverName true true = HandlerResponse.proceed := by
  refine ⟨rfl, fun granted => rfl, rfl⟩

/-- Claim C5 fails on the code: `CATALOG_PAGE_VALIDATOR` was built with
`.allow_extra("*")`, so a catalog query carrying the unknown parameter
`foo` (not one of `n`, `last`, `org`, `project`) validates successfully
instead of being rejected with 400. -/
theorem c5_counterexample :
    CATALOG_PAGE_VALIDATOR [("n", "10"), ("foo", "bar")] =
      Except.ok ⟨10, ""⟩ ∧
    ("foo" : String) ∉ ["n", "last", "org", "project"] := by
  constructor
  · rfl
  · decide

/-- Claim C5 as amended: the catalog page validator never rejects a query
for carrying unknown parameters — it reads only `n` (a positive integer
when present, defaulting to 100) and `last`, and ignores every other key. -/
theorem c5_catalog_validator_amended (query : List (String × String)) :
    (queryGet query "n" = none →
      CATALOG_PAGE_VALIDATOR query =
        Except.ok ⟨100, (queryGet query "last").getD ""⟩) ∧
    (∀ s k, queryGet query "n" = some s → parseIntStr s = some k → 0 < k →
      CATALOG_PAGE_VALIDATOR query =
        Except.ok ⟨k, (queryGet query "last").getD ""⟩) := by
  constructor
  · intro h
    unfold CATALOG_PAGE_VALIDATOR
    rw [h]
  · intro s k hs hk hpos
    unfold CATALOG_PAGE_VALIDATOR
    rw [hs]
    dsimp only
    rw [hk]
    dsimp only
    rw [if_pos hpos]

theorem c5_catalog_validator_amended_witness :
    (queryGet [("n", "10"), ("org", "o"), ("bogus", "y")] "n" = some "10" ∧
      parseIntStr "10" = some 10 ∧ 0 < 10) ∧
    CATALOG_PAGE_VALIDATOR [("n", "10"), ("org", "o"), ("bogus", "y")] =
      Except.ok ⟨10, (queryGet [("n", "10"), ("org", "o"), ("bogus", "y")]
        "last").getD ""⟩ :=
  ⟨⟨by decide, by decide, by decide⟩,
    (c5_catalog_validator_amended [("n", "10"), ("org", "o"), ("bogus", "y")]).2
      "10" 10 (by decide) (by decide) (by decide)⟩

/-! ## Path-grammar lemmas -/

theorem findLastValid_some {p : Nat → Bool} :
    ∀ {n k : Nat}, findLastValid p n = some k →
      k < n ∧ p k = true ∧ ∀ j, k < j → j < n → p j = false := by
  intro n
  induction n with
  | zero => intro k h; exact absurd h (by simp [findLastValid])
  | succ n ih =>
    intro k h
    unfold findLastValid at h
    by_cases hp : p n = true
    · rw [if_pos hp] at h
      cases h
      exact ⟨Nat.lt_succ_self n, hp, fun j hj hjn => absurd hj (by omega)⟩
    · rw [if_neg hp] at h
      obtain ⟨h1, h2, h3⟩ := ih h
      refine ⟨by omega, h2, fun j hj hjn => ?_⟩
      by_cases hje : j = n
      · subst hje; simpa using hp
      · exact h3 j hj (by omega)

theorem findLastValid_eq_some {p : Nat → Bool} {k : Nat} :
    ∀ {n : Nat}, k < n → p k = true → (∀ j, k < j → j < n → p j = false) →
      findLastValid p n = some k := by
  intro n
  induction n with
  | zero => intro h; omega
  | succ n ih =>
    intro hk hpk hmax
    unfold findLastValid
    by_cases h : k = n
    · subst h; rw [if_pos hpk]
    · have hkn : k < n := by omega
      rw [if_neg (by simp [hmax n hkn (Nat.lt_succ_self n)])]
      exact ih hkn hpk fun j hj hjn => hmax j hj (by omega)

theorem joinSegs_cons_cons (a b : String) (l : List String) :
    joinSegs (a :: b :: l) = a ++ "/" ++ joinSegs (b :: l) := rfl

theorem joinSegs_ne_empty {l : List String} (h : 2 ≤ l.length) :
    joinSegs l ≠ "" := by
  cases l with
  | nil => simp at h
  | cons a t =>
    cases t with
    | nil => simp at h
    | cons b t2 =>
      intro hEq
      have hlen := congrArg String.length hEq
      rw [joinSegs_cons_cons, String.length_append, String.length_append]
        at hlen
      have h1 : ("/" : String).length = 1 := rfl
      have h2 : ("" : String).length = 0 := rfl
      omega

theorem joinSegs_append_ne_empty {a b : List String} (ha : a ≠ [])
    (hb : b ≠ []) : joinSegs (a ++ b) ≠ "" := by
  apply joinSegs_ne_empty
  have h1 : 0 < a.length := List.length_pos.mpr ha
  have h2 : 0 < b.length := List.length_pos.mpr hb
  rw [List.length_append]
  omega

theorem v2SplitValid_spec {rest : List String} {k : Nat}
    (h : v2SplitValid rest k = true) :
    (rest.getD k "" = "tags" ∨ rest.getD k "" = "manifests" ∨
      rest.getD k "" = "blobs") ∧
    k + 2 ≤ rest.length ∧ joinSegs (rest.take k) ≠ "" := by
  simp only [v2SplitValid, Bool.and_eq_true, Bool.or_eq_true,
    decide_eq_true_eq] at h
  tauto

theorem v2SplitValid_mk {rest : List String} {k : Nat}
    (h1 : rest.getD k "" = "tags" ∨ rest.getD k "" = "manifests" ∨
      rest.getD k "" = "blobs")
    (h2 : k + 2 ≤ rest.length) (h3 : joinSegs (rest.take k) ≠ "") :
    v2SplitValid rest k = true := by
  simp only [v2SplitValid, Bool.and_eq_true, Bool.or_eq_true,
    decide_eq_true_eq]
  tauto

theorem v2SplitValid_false_of_kw {rest : List String} {k : Nat}
    (h : rest.getD k "" ≠ "tags" ∧ rest.getD k "" ≠ "manifests" ∧
      rest.getD k "" ≠ "blobs") :
    v2SplitValid rest k = false := by
  rw [Bool.eq_false_iff]
  intro hcontra
  obtain ⟨hkw, _, _⟩ := v2SplitValid_spec hcontra
  tauto

theorem parseV2_cons (rest : List String) :
    parseV2 ("" :: "v2" :: rest) =
      (findLastValid (v2SplitValid rest) rest.length).map fun k =>
        (rest.take k, rest.drop k) := rfl

theorem parseV2_blobs_uploads (R : List String) (hR : joinSegs R ≠ "") :
    parseV2 ("" :: "v2" :: (R ++ ["blobs", "uploads", ""])) =
      some (R, ["blobs", "uploads", ""]) := by
  have hRne : R ≠ [] := by
    intro hnil
    exact hR (hnil ▸ rfl)
  have hlen : R.length < (R ++ ["blobs", "uploads", ""]).length := by
    rw [List.length_append]; simp
  have hvalid : v2SplitValid (R ++ ["blobs", "uploads", ""]) R.length = true := by
    apply v2SplitValid_mk
    · right; right
      rw [List.getD_append_right _ _ _ _ (le_refl _)]
      simp
    · rw [List.length_append]; simp
    · rw [List.take_left]; exact hR
  have hmax : ∀ j, R.length < j → j < (R ++ ["blobs", "uploads", ""]).length →
      v2SplitValid (R ++ ["blobs", "uploads", ""]) j = false := by
    intro j hj hjn
    rw [List.length_append] at hjn
    have hcase : j = R.length + 1 ∨ j = R.length + 2 := by
      simp at hjn; omega
    rcases hcase with hc | hc
    · subst hc
      have hg : (R ++ ["blobs", "uploads", ""]).getD (R.length + 1) "" =
          "uploads" := by
        rw [List.getD_append_right _ _ _ _ (by omega)]
        simp
      exact v2SplitValid_false_of_kw (by rw [hg]; refine ⟨?_, ?_, ?_⟩ <;> decide)
    · subst hc
      have hg : (R ++ ["blobs", "uploads", ""]).getD (R.length + 2) "" = "" := by
        rw [List.getD_append_right _ _ _ _ (by omega)]
        simp
      exact v2SplitValid_false_of_kw (by rw [hg]; refine ⟨?_, ?_, ?_⟩ <;> decide)
  rw [parseV2_cons, findLastValid_eq_some hlen hvalid hmax, Option.map_some',
    List.take_left, List.drop_left]

theorem repoUrlParse_v2 (u : Url) {R S : List String}
    (hp : passthroughMatch u.pathSegs = none)
    (hv : parseV2 u.pathSegs = some (R, S)) :
    repoUrlParse u = some (R, v2MountedRepo S u.query, ⟨none, S, u.query⟩) := by
  unfold repoUrlParse
  rw [hp, hv]

/-- Claim C3: with a Basic upstream, every non-passthrough request whose
permission check passes reaches `get_headers_for_repo` with the two
positional arguments `V2Handler.handle` always passes, while
`BasicUpstream.get_headers_for_repo` accepts only `repo` — so the call
raises `TypeError` instead of returning authorization headers, whatever
the repo and mounted repo (the empty string included) are. -/
theorem c3_basic_upstream_type_error (permsOk : Bool)
    (encodeBasicAuth : String → String → String) (username password : String)
    (f : URLFactory) (r : RepoURL) (x : List String × String × Url)
    (hskip : allow_skip_perms r = false)
    (hparse : repoUrlParse r.url = some x)
    (hperm : permsOk = true) :
    handle_with_basic_upstream permsOk encodeBasicAuth username password f r =
      some BasicHandleResult.typeError := by
  subst hperm
  unfold handle_with_basic_upstream
  rw [hskip]
  rw [if_neg (by simp)]
  unfold create_upstream_repo_url
  rw [hskip]
  rw [if_neg (by simp)]
  unfold with_project
  rw [hparse, Option.map_some', Option.map_some']
  rfl

theorem c3_basic_upstream_type_error_witness :
    (allow_skip_perms ⟨["alice", "img"], "",
        ⟨some "http://reg", ["", "v2", "alice", "img", "tags", "list"], []⟩⟩ =
      false ∧
      repoUrlParse
        ⟨some "http://reg", ["", "v2", "alice", "img", "tags", "list"], []⟩ =
        some (["alice", "img"], "",
          ⟨none, ["tags", "list"], []⟩) ∧
      (true : Bool) = true) ∧
    handle_with_basic_upstream true (fun _ _ => "") "u" "p"
      ⟨"http://reg", "http://up", ["testproject"], none⟩
      ⟨["alice", "img"], "",
        ⟨some "http://reg", ["", "v2", "alice", "img", "tags", "list"], []⟩⟩ =
      some BasicHandleResult.typeError :=
  ⟨⟨by decide, by decide, rfl⟩,
    c3_basic_upstream_type_error true (fun _ _ => "") "u" "p"
      ⟨"http://reg", "http://up", ["testproject"], none⟩
      ⟨["alice", "img"], "",
        ⟨some "http://reg", ["", "v2", "alice", "img", "tags", "list"], []⟩⟩
      (["alice", "img"], "", ⟨none, ["tags", "list"], []⟩)
      (by decide) (by decide) rfl⟩

theorem filterImagesGo_mem {tree : ClientSubTreeViewRoot} {pre : String} :
    ∀ (l : List String) (idx i : Nat) (img : String),
      (i, img) ∈ filterImagesGo tree pre l idx →
      ∃ name ∈ l, strStartsWith name pre = true ∧
        img = strDrop name pre.length ∧
        check_image_catalog_permission img tree = true := by
  intro l
  induction l with
  | nil => intro idx i img h; simp [filterImagesGo] at h
  | cons a t ih =>
    intro idx i img h
    unfold filterImagesGo at h
    by_cases h1 : strStartsWith a pre = true
    · rw [if_pos h1] at h
      dsimp only at h
      by_cases h2 : check_image_catalog_permission (strDrop a pre.length)
          tree = true
      · rw [if_pos h2] at h
        rcases List.mem_cons.mp h with heq | hmem
        · have himg : img = strDrop a pre.length := (Prod.ext_iff.mp heq).2
          exact ⟨a, List.mem_cons_self a t, h1, himg, himg ▸ h2⟩
        · obtain ⟨name, hn, hs, he, hc⟩ := ih _ _ _ hmem
          exact ⟨name, List.mem_cons_of_mem _ hn, hs, he, hc⟩
      · rw [if_neg h2] at h
        obtain ⟨name, hn, hs, he, hc⟩ := ih _ _ _ h
        exact ⟨name, List.mem_cons_of_mem _ hn, hs, he, hc⟩
    · rw [if_neg h1] at h
      obtain ⟨name, hn, hs, he, hc⟩ := ih _ _ _ h
      exact ⟨name, List.mem_cons_of_mem _ hn, hs, he, hc⟩

theorem handleCatalogLoop_length {tree : ClientSubTreeViewRoot}
    {projName : String} {upstreamRepo : Option String} {n : Nat} :
    ∀ (pages : List (List String)) (filtered : List String),
      filtered.length ≤ n →
      (handleCatalogLoop tree projName upstreamRepo n pages filtered).length
        ≤ n := by
  intro pages
  induction pages with
  | nil => intro filtered h; exact h
  | cons p rest ih =>
    intro filtered h
    unfold handleCatalogLoop
    by_cases h1 : filtered.length < n
    · rw [if_pos h1]
      by_cases h2 : p.isEmpty = true
      · rw [if_pos h2]; exact h
      · rw [if_neg h2]
        dsimp only
        apply ih
        rw [List.length_append, List.length_take]
        omega
    · rw [if_neg h1]; exact h

theorem handleCatalogLoop_mem {tree : ClientSubTreeViewRoot}
    {projName : String} {upstreamRepo : Option String} {n : Nat} :
    ∀ (pages : List (List String)) (filtered : List String) (img : String),
      img ∈ handleCatalogLoop tree projName upstreamRepo n pages filtered →
      img ∈ filtered ∨ ∃ name ∈ pages.flatten,
        strStartsWith name (catalogProjectPre projName upstreamRepo) = true ∧
        img = strDrop name (catalogProjectPre projName upstreamRepo).length ∧
        check_image_catalog_permission img tree = true := by
  intro pages
  induction pages with
  | nil => intro filtered img h; exact Or.inl h
  | cons p rest ih =>
    intro filtered img h
    unfold handleCatalogLoop at h
    by_cases h1 : filtered.length < n
    · rw [if_pos h1] at h
      by_cases h2 : p.isEmpty = true
      · rw [if_pos h2] at h; exact Or.inl h
      · rw [if_neg h2] at h
        dsimp only at h
        rcases ih _ _ h with hin | ⟨name, hn, hrest⟩
        · rcases List.mem_append.mp hin with hf | htake
          · exact Or.inl hf
          · obtain ⟨⟨i, img2⟩, hmemf, heq⟩ :=
              List.mem_map.mp (List.take_subset _ _ htake)
            have himg2 : img2 = img := heq
            subst himg2
            obtain ⟨nm, hnm, hS, hE, hC⟩ :=
              filterImagesGo_mem p 1 i img2 hmemf
            exact Or.inr ⟨nm, List.mem_flatten.mpr ⟨p,
              List.mem_cons_self p rest, hnm⟩, hS, hE, hC⟩
        · refine Or.inr ⟨name, ?_, hrest⟩
          rw [List.flatten_cons]
          exact List.mem_append_right _ hn
    · rw [if_neg h1] at h; exact Or.inl h

/-- Claim C6: for every requested catalog page size `n` and every sequence
of upstream pages, the `repositories` list of the catalog response has at
most `n` entries, and every entry is an upstream name that carried the
configured project prefix (plus the optional upstream repo prefix),
stripped of that prefix, for which `check_image_catalog_permission`
returned true. -/
theorem c6_catalog_page_invariant (pages : List (List String))
    (tree : ClientSubTreeViewRoot) (projName : String)
    (upstreamRepo : Option String) (n : Nat) :
    (handle_catalog_repositories pages tree projName upstreamRepo n).length
      ≤ n ∧
    ∀ img ∈ handle_catalog_repositories pages tree projName upstreamRepo n,
      ∃ name ∈ pages.flatten,
        strStartsWith name (catalogProjectPre projName upstreamRepo) = true ∧
        img = strDrop name (catalogProjectPre projName upstreamRepo).length ∧
        check_image_catalog_permission img tree = true := by
  constructor
  · exact handleCatalogLoop_length pages [] (by simp)
  · intro img h
    rcases handleCatalogLoop_mem pages [] img h with hin | hex
    · simp at hin
    · exact hex

theorem c6_catalog_page_invariant_witness :
    (handle_catalog_repositories
        [["testproject/alice/img1", "testproject/bob/img2"]]
        ⟨.node .list [("alice", .node .manage [])]⟩ "testproject" none
        10).length ≤ 10 ∧
    ∃ name ∈ ([["testproject/alice/img1", "testproject/bob/img2"]] :
        List (List String)).flatten,
      strStartsWith name (catalogProjectPre "testproject" none) = true ∧
      "alice/img1" = strDrop name (catalogProjectPre "testproject" none).length ∧
      check_image_catalog_permission "alice/img1"
        ⟨.node .list [("alice", .node .manage [])]⟩ = true :=
  ⟨(c6_catalog_page_invariant [["testproject/alice/img1", "testproject/bob/img2"]]
      ⟨.node .list [("alice", .node .manage [])]⟩ "testproject" none 10).1,
    (c6_catalog_page_invariant [["testproject/alice/img1", "testproject/bob/img2"]]
      ⟨.node .list [("alice", .node .manage [])]⟩ "testproject" none 10).2
      "alice/img1" (by decide)⟩

/-- Claim C7: a `POST /v2/{repo}/blobs/uploads/?from={other}` request (with
`other` non-empty, on a non-passthrough path) makes the handler check
exactly two permissions — `write` on `image://{cluster}/{repo}` and `read`
on `image://{cluster}/{other}` — and the request is forwarded exactly when
both are granted. -/
theorem c7_cross_repo_mount (clusterName : String) (R : List String)
    (other : String) (origin : Option String) (q : List (String × String))
    (granted : Permission → Bool) (r : RepoURL)
    (hjoin : joinSegs R ≠ "")
    (hother : other ≠ "")
    (hpass : passthroughMatch ("" :: "v2" :: (R ++ ["blobs", "uploads", ""]))
      = none)
    (hfrom : queryGet q "from" = some other)
    (hr : from_url ⟨origin, "" :: "v2" :: (R ++ ["blobs", "uploads", ""]), q⟩
      = some r) :
    handle_permissions clusterName "POST" r =
      [⟨create_image_uri clusterName (joinSegs R), "write"⟩,
       ⟨create_image_uri clusterName other, "read"⟩] ∧
    (handle_forwards clusterName "POST" granted r = true ↔
      granted ⟨create_image_uri clusterName (joinSegs R), "write"⟩ = true ∧
      granted ⟨create_image_uri clusterName other, "read"⟩ = true) := by
  have hmnt : v2MountedRepo ["blobs", "uploads", ""] q = other := by
    unfold v2MountedRepo
    rw [hfrom]
    rfl
  have hparse : repoUrlParse
      ⟨origin, "" :: "v2" :: (R ++ ["blobs", "uploads", ""]), q⟩ =
      some (R, other, ⟨none, ["blobs", "uploads", ""], q⟩) := by
    rw [repoUrlParse_v2 _ hpass (parseV2_blobs_uploads R hjoin), hmnt]
  unfold from_url at hr
  rw [hparse, Option.map_some'] at hr
  cases hr
  have hpull : is_pull_request "POST" = false := rfl
  have hskip : allow_skip_perms ⟨R, other,
      ⟨origin, "" :: "v2" :: (R ++ ["blobs", "uploads", ""]), q⟩⟩ = false := by
    unfold allow_skip_perms
    rw [hpass]
    rfl
  constructor
  · simp [handle_permissions, hpull, hother]
  · simp [handle_forwards, handle_permissions, hskip, hpull, hother,
      List.all_cons]

theorem c7_cross_repo_mount_witness :
    (joinSegs ["alice", "img"] ≠ "" ∧ ("alice/other" : String) ≠ "" ∧
      passthroughMatch ("" :: "v2" ::
        (["alice", "img"] ++ ["blobs", "uploads", ""])) = none ∧
      queryGet [("from", "alice/other")] "from" = some "alice/other" ∧
      from_url ⟨some "http://reg", "" :: "v2" ::
          (["alice", "img"] ++ ["blobs", "uploads", ""]),
          [("from", "alice/other")]⟩ =
        some ⟨["alice", "img"], "alice/other",
          ⟨some "http://reg", "" :: "v2" ::
            (["alice", "img"] ++ ["blobs", "uploads", ""]),
            [("from", "alice/other")]⟩⟩) ∧
    (handle_permissions "default" "POST"
        ⟨["alice", "img"], "alice/other",
          ⟨some "http://reg", "" :: "v2" ::
            (["alice", "img"] ++ ["blobs", "uploads", ""]),
            [("from", "alice/other")]⟩⟩ =
      [⟨create_image_uri "default" (joinSegs ["alice", "img"]), "write"⟩,
       ⟨create_image_uri "default" "alice/other", "read"⟩] ∧
    (handle_forwards "default" "POST" (fun _ => true)
        ⟨["alice", "img"], "alice/other",
          ⟨some "http://reg", "" :: "v2" ::
            (["alice", "img"] ++ ["blobs", "uploads", ""]),
            [("from", "alice/other")]⟩⟩ = true ↔
      (fun _ => true) (Permission.mk
        (create_image_uri "default" (joinSegs ["alice", "img"])) "write") =
          true ∧
      (fun _ => true) (Permission.mk
        (create_image_uri "default" "alice/other") "read") = true)) :=
  ⟨⟨by decide, by decide, by decide, by decide, by decide⟩,
    c7_cross_repo_mount "default" ["alice", "img"] "alice/other"
      (some "http://reg") [("from", "alice/other")] (fun _ => true)
      ⟨["alice", "img"], "alice/other",
        ⟨some "http://reg", "" :: "v2" ::
          (["alice", "img"] ++ ["blobs", "uploads", ""]),
          [("from", "alice/other")]⟩⟩
      (by decide) (by decide) (by decide) (by decide) (by decide)⟩

theorem parseV2_shape {segs : List String} {pr : List String × List String}
    (h : parseV2 segs = some pr) : ∃ rest, segs = "" :: "v2" :: rest := by
  unfold parseV2 at h
  split at h
  · next rest => exact ⟨rest, rfl⟩
  · cases h

theorem parseV2_shift {rest R S P : List String} (hP : P ≠ [])
    (h : parseV2 ("" :: "v2" :: rest) = some (R, S)) :
    rest = R ++ S ∧ R ≠ [] ∧
    parseV2 ("" :: "v2" :: (P ++ rest)) = some (P ++ R, S) := by
  rw [parseV2_cons] at h
  obtain ⟨k, hk, heq⟩ := Option.map_eq_some'.mp h
  injection heq with hR hS
  obtain ⟨hlt, hvalid, hmax⟩ := findLastValid_some hk
  obtain ⟨hkw, hbound, hjoin⟩ := v2SplitValid_spec hvalid
  have hk1 : 1 ≤ k := by
    by_contra hc
    have hk0 : k = 0 := by omega
    subst hk0
    exact hjoin rfl
  have hRne : R ≠ [] := by
    rw [← hR]
    intro hnil
    have hlen := congrArg List.length hnil
    rw [List.length_take, Nat.min_eq_left (by omega)] at hlen
    simp at hlen
    omega
  have hsplit : rest = R ++ S := by
    rw [← hR, ← hS, List.take_append_drop]
  refine ⟨hsplit, hRne, ?_⟩
  rw [parseV2_cons]
  have hvalid2 : v2SplitValid (P ++ rest) (P.length + k) = true := by
    apply v2SplitValid_mk
    · rw [List.getD_append_right _ _ _ _ (by omega), Nat.add_sub_cancel_left]
      exact hkw
    · rw [List.length_append]; omega
    · rw [List.take_append, hR]
      exact joinSegs_append_ne_empty hP hRne
  have hmax2 : ∀ j, P.length + k < j → j < (P ++ rest).length →
      v2SplitValid (P ++ rest) j = false := by
    intro j hj hjn
    rw [List.length_append] at hjn
    have hjP : P.length ≤ j := by omega
    have hfalse := hmax (j - P.length) (by omega) (by omega)
    rw [Bool.eq_false_iff]
    intro hcontra
    obtain ⟨hkw2, hbound2, hjoin2⟩ := v2SplitValid_spec hcontra
    rw [List.length_append] at hbound2
    have htrue : v2SplitValid rest (j - P.length) = true := by
      apply v2SplitValid_mk
      · rw [List.getD_append_right _ _ _ _ hjP] at hkw2
        exact hkw2
      · omega
      · apply joinSegs_ne_empty
        rw [List.length_take]
        omega
    rw [htrue] at hfalse
    simp at hfalse
  rw [findLastValid_eq_some (by rw [List.length_append]; omega) hvalid2 hmax2,
    Option.map_some', List.take_append, List.drop_append, hR, hS]

/-- Claim C1 fails on the code: with configured project `p` and configured
upstream repo `r`, the URL `/v2/a/img/blobs/uploads/?from=a/other` round
trips to repo `r/a/img` (the upstream-repo prefix is not stripped by
`create_registry_repo_url`) and query `from=p/a/other` (the mount stays
project-prefixed), both differing from `from_url`'s repo `a/img` and
query `from=a/other`. -/
theorem c1_counterexample :
    (Option.map (fun rr => (rr.repo, rr.url.query))
      (((from_url ⟨some "http://reg",
          ["", "v2", "a", "img", "blobs", "uploads", ""],
          [("from", "a/other")]⟩).bind
        (create_upstream_repo_url
          ⟨"http://reg", "http://up", ["p"], some ["r"]⟩)).bind
        (create_registry_repo_url
          ⟨"http://reg", "http://up", ["p"], some ["r"]⟩)) =
      some (["r", "a", "img"], [("from", "p/a/other")])) ∧
    (Option.map (fun r => (r.repo, r.url.query))
      (from_url ⟨some "http://reg",
        ["", "v2", "a", "img", "blobs", "uploads", ""],
        [("from", "a/other")]⟩) =
      some (["a", "img"], [("from", "a/other")])) ∧
    (["r", "a", "img"] : List String) ≠ ["a", "img"] ∧
    ([("from", "p/a/other")] : List (String × String)) ≠
      [("from", "a/other")] := by
  refine ⟨by decide, by decide, by decide, by decide⟩

/-- Claim C1 as amended: for a well-formed non-passthrough v2 URL whose
query carries no cross-repo mount, under a configuration with no upstream
repo, and whenever the rewritten upstream path does not itself match a
passthrough pattern, `create_registry_repo_url (create_upstream_repo_url
(from_url u))` equals `from_url u` modulo origin: same repo, same mounted
repo, same path segments and same query. -/
theorem c1_round_trip_modulo_origin (f : URLFactory) (u : Url) (r : RepoURL)
    (hproj : f.upstreamProject ≠ [])
    (hup : f.upstreamRepo = none)
    (hpass : passthroughMatch u.pathSegs = none)
    (hr : from_url u = some r)
    (hmnt : r.mountedRepo = "")
    (hpass2 : ∀ ru, create_upstream_repo_url f r = some ru →
      passthroughMatch ru.url.pathSegs = none) :
    ∃ ru rr, create_upstream_repo_url f r = some ru ∧
      create_registry_repo_url f ru = some rr ∧
      rr.repo = r.repo ∧ rr.mountedRepo = r.mountedRepo ∧
      rr.url.pathSegs = u.pathSegs ∧ rr.url.query = u.query := by
  unfold from_url at hr
  obtain ⟨x, hx, hxr⟩ := Option.map_eq_some'.mp hr
  cases hv : parseV2 u.pathSegs with
  | none =>
    exfalso
    have hnone : repoUrlParse u = none := by
      unfold repoUrlParse
      rw [hpass, hv]
    rw [hnone] at hx
    cases hx
  | some pr =>
    obtain ⟨R, S⟩ := pr
    have hparse : repoUrlParse u =
        some (R, v2MountedRepo S u.query, ⟨none, S, u.query⟩) :=
      repoUrlParse_v2 u hpass hv
    have hxeq := Option.some.inj (hparse.symm.trans hx)
    subst hxeq
    dsimp only at hxr
    subst hxr
    dsimp only at hmnt
    obtain ⟨rest, hshape⟩ := parseV2_shape hv
    rw [hshape] at hv
    obtain ⟨hsplit, hRne, hshift⟩ := parseV2_shift hproj hv
    have hskip : allow_skip_perms ⟨R, v2MountedRepo S u.query, u⟩ = false := by
      unfold allow_skip_perms
      dsimp only
      rw [hpass]
      rfl
    have hwp : with_project f.upstreamProject f.upstreamRepo
        ⟨R, v2MountedRepo S u.query, u⟩ =
        some ⟨f.upstreamProject ++ R, "",
          ⟨u.origin, "" :: "v2" :: (f.upstreamProject ++ R) ++ S, u.query⟩⟩ := by
      unfold with_project
      rw [hparse, Option.map_some', hup]
      simp [hmnt]
    have hru : create_upstream_repo_url f ⟨R, v2MountedRepo S u.query, u⟩ =
        some ⟨f.upstreamProject ++ R, "",
          ⟨some f.upstreamEndpointOrigin,
            "" :: "v2" :: (f.upstreamProject ++ R) ++ S, u.query⟩⟩ := by
      unfold create_upstream_repo_url
      rw [if_neg (by rw [hskip]; simp), hwp, Option.map_some']
      rfl
    have hpass3 : passthroughMatch
        ("" :: "v2" :: (f.upstreamProject ++ R) ++ S) = none :=
      hpass2 _ hru
    have hparse3 : parseV2 ("" :: "v2" :: (f.upstreamProject ++ R) ++ S) =
        some (f.upstreamProject ++ R, S) := by
      rw [hsplit] at hshift
      rw [List.cons_append, List.cons_append, List.append_assoc]
      exact hshift
    have hparse_ru : repoUrlParse
        ⟨some f.upstreamEndpointOrigin,
          "" :: "v2" :: (f.upstreamProject ++ R) ++ S, u.query⟩ =
        some (f.upstreamProject ++ R, v2MountedRepo S u.query,
          ⟨none, S, u.query⟩) :=
      repoUrlParse_v2 _ hpass3 hparse3
    have hwr : with_repo ((f.upstreamProject ++ R).drop f.upstreamProject.length)
        ⟨f.upstreamProject ++ R, "",
          ⟨some f.upstreamEndpointOrigin,
            "" :: "v2" :: (f.upstreamProject ++ R) ++ S, u.query⟩⟩ =
        some ⟨R, "",
          ⟨some f.upstreamEndpointOrigin, "" :: "v2" :: R ++ S, u.query⟩⟩ := by
      unfold with_repo
      rw [hparse_ru, Option.map_some', List.drop_left]
    have hreg : create_registry_repo_url f
        ⟨f.upstreamProject ++ R, "",
          ⟨some f.upstreamEndpointOrigin,
            "" :: "v2" :: (f.upstreamProject ++ R) ++ S, u.query⟩⟩ =
        some ⟨R, "",
          ⟨some f.registryEndpointOrigin, "" :: "v2" :: R ++ S, u.query⟩⟩ := by
      unfold create_registry_repo_url
      rw [if_pos ?hcond]
      case hcond =>
        have h1 : f.upstreamProject.isPrefixOf (f.upstreamProject ++ R) =
            true := List.isPrefixOf_iff_prefix.mpr (List.prefix_append _ _)
        have h2 : f.upstreamProject.length < (f.upstreamProject ++ R).length := by
          rw [List.length_append]
          have h3 := List.length_pos.mpr hRne
          omega
        dsimp only
        rw [h1]
        simp only [Bool.true_and, decide_eq_true_eq]
        exact h2
      rw [hwr, Option.map_some']
      rfl
    refine ⟨_, _, hru, hreg, rfl, hmnt.symm, ?_, rfl⟩
    dsimp only
    rw [hshape, hsplit]
    simp [List.cons_append]

theorem c1_round_trip_modulo_origin_witness :
    ∃ ru rr, create_upstream_repo_url
        ⟨"http://reg", "http://up", ["testproject"], none⟩
        ⟨["alice", "img"], "",
          ⟨some "http://reg", ["", "v2", "alice", "img", "tags", "list"],
            [("what", "ever")]⟩⟩ = some ru ∧
      create_registry_repo_url
        ⟨"http://reg", "http://up", ["testproject"], none⟩ ru = some rr ∧
      rr.repo = RepoURL.repo ⟨["alice", "img"], "",
        ⟨some "http://reg", ["", "v2", "alice", "img", "tags", "list"],
          [("what", "ever")]⟩⟩ ∧
      rr.mountedRepo = RepoURL.mountedRepo ⟨["alice", "img"], "",
        ⟨some "http://reg", ["", "v2", "alice", "img", "tags", "list"],
          [("what", "ever")]⟩⟩ ∧
      rr.url.pathSegs = ["", "v2", "alice", "img", "tags", "list"] ∧
      rr.url.query = [("what", "ever")] := by
  refine c1_round_trip_modulo_origin
    ⟨"http://reg", "http://up", ["testproject"], none⟩
    ⟨some "http://reg", ["", "v2", "alice", "img", "tags", "list"],
      [("what", "ever")]⟩
    ⟨["alice", "img"], "",
      ⟨some "http://reg", ["", "v2", "alice", "img", "tags", "list"],
        [("what", "ever")]⟩⟩
    (by decide) rfl (by decide) (by decide) rfl ?_
  intro ru h
  have hc : create_upstream_repo_url
      ⟨"http://reg", "http://up", ["testproject"], none⟩
      ⟨["alice", "img"], "",
        ⟨some "http://reg", ["", "v2", "alice", "img", "tags", "list"],
          [("what", "ever")]⟩⟩ =
      some ⟨["testproject", "alice", "img"], "",
        ⟨some "http://up",
          ["", "v2", "testproject", "alice", "img", "tags", "list"],
          [("what", "ever")]⟩⟩ := by decide
  rw [hc] at h
  cases h
  decide

end RegistryApi
